import Mathlib

/-!
Verification of the array-data-processor classifier.

This file gives a shallow embedding of the core classification function of
the repository, implemented twice in the source:

* `processArrayData` in src/backend/server.js (lines 17-93), the server-side
  implementation, whose whole body is wrapped in try/catch; and
* `processArrayClientSide` in src/frontend/app.js (lines 287-343), the
  client-side fallback, whose body is the same token-processing block but
  with no try/catch, no explicit Array.isArray check, and an extra
  `processed_with` field on the returned record.

The token-processing block (lines 25-76 of server.js and lines 288-342 of
app.js) is character-for-character identical in the two source functions;
it is embedded once below as `processItems` and the two entry points are
modelled separately around it, preserving their real differences (exception
behaviour and the extra field).

JavaScript numbers are IEEE-754 binary64 values.  Every number produced by
the core (parseInt of a digit string, and sums of such values) is an
integer-valued double, so doubles are embedded as the mathematical integer
they denote, with the binary64 rounding step made explicit by `fl`
(round to nearest, ties to even, 53-bit significand).  `String(n)` for such
a value is its plain decimal representation (JavaScript switches to
exponential notation only at 1e21, far beyond every bound appearing in the
statements below).
-/

namespace ArrayProc

/-- JSON-representable JavaScript values, as delivered by the JSON body
parser (server) or `JSON.parse` (client).  Numbers are modelled by the
integer they denote: every number reaching the core in the repository's
spec, tests and examples is an integer-valued double.  A JSON object other
than the top-level request body is never inspected by the core beyond its
default stringification, so `obj` carries no payload. -/
inductive JVal where
  | null
  | bool (b : Bool)
  | num (n : Int)
  | str (s : String)
  | arr (elems : List JVal)
  | obj

mutual
/-- Boolean equality on `JVal`, used to derive decidable equality for the
nested inductive. -/
def JVal.beq : JVal → JVal → Bool
  | .null, .null => true
  | .bool a, .bool b => a == b
  | .num a, .num b => a == b
  | .str a, .str b => a == b
  | .arr xs, .arr ys => JVal.beqList xs ys
  | .obj, .obj => true
  | _, _ => false

def JVal.beqList : List JVal → List JVal → Bool
  | [], [] => true
  | x :: xs, y :: ys => JVal.beq x y && JVal.beqList xs ys
  | _, _ => false
end

mutual
theorem JVal.beq_iff : ∀ a b : JVal, JVal.beq a b = true ↔ a = b
  | .null, .null => by simp [JVal.beq]
  | .null, .bool _ | .null, .num _ | .null, .str _ | .null, .arr _ | .null, .obj => by
    simp [JVal.beq]
  | .bool _, .null | .bool _, .num _ | .bool _, .str _ | .bool _, .arr _ | .bool _, .obj => by
    simp [JVal.beq]
  | .bool a, .bool b => by simp [JVal.beq]
  | .num _, .null | .num _, .bool _ | .num _, .str _ | .num _, .arr _ | .num _, .obj => by
    simp [JVal.beq]
  | .num a, .num b => by simp [JVal.beq]
  | .str _, .null | .str _, .bool _ | .str _, .num _ | .str _, .arr _ | .str _, .obj => by
    simp [JVal.beq]
  | .str a, .str b => by simp [JVal.beq]
  | .arr _, .null | .arr _, .bool _ | .arr _, .num _ | .arr _, .str _ | .arr _, .obj => by
    simp [JVal.beq]
  | .arr xs, .arr ys => by simp [JVal.beq, JVal.beqList_iff xs ys]
  | .obj, .null | .obj, .bool _ | .obj, .num _ | .obj, .str _ | .obj, .arr _ => by
    simp [JVal.beq]
  | .obj, .obj => by simp [JVal.beq]

theorem JVal.beqList_iff : ∀ xs ys : List JVal, JVal.beqList xs ys = true ↔ xs = ys
  | [], [] => by simp [JVal.beqList]
  | [], _ :: _ => by simp [JVal.beqList]
  | _ :: _, [] => by simp [JVal.beqList]
  | x :: xs, y :: ys => by
    simp [JVal.beqList, JVal.beq_iff x y, JVal.beqList_iff xs ys]
end

instance : DecidableEq JVal := fun a b => decidable_of_iff _ (JVal.beq_iff a b)

/-- JavaScript truthiness of a `JVal`, as used by `inputData.data || []`:
null, false, 0 and the empty string are falsy; every array and object is
truthy. -/
def jsTruthy : JVal → Bool
  | .null => false
  | .bool b => b
  | .num n => n != 0
  | .str s => s != ""
  | .arr _ => true
  | .obj => true

/-- Whether a `JVal` is an array, modelling `Array.isArray`. -/
def JVal.isArr : JVal → Bool
  | .arr _ => true
  | _ => false

/-- Binary64 rounding of a natural number: the value of the IEEE-754 double
nearest to `n` (round to nearest, ties to even, 53-bit significand).
Numbers below 2^53 are exactly representable; above that, the low
`bitLen n - 53` bits are rounded away. -/
def bitLenAux : Nat → Nat → Nat
  | 0, _ => 0
  | fuel + 1, n => if n = 0 then 0 else bitLenAux fuel (n / 2) + 1

/-- Number of binary digits of `n` (0 for 0).  The fuel `n` always
suffices since the bit length of `n` is at most `n`. -/
def bitLen (n : Nat) : Nat := bitLenAux n n

def flNat (n : Nat) : Nat :=
  if n < 2 ^ 53 then n
  else
    let e := bitLen n - 53
    let q := n / 2 ^ e
    let r := n % 2 ^ e
    if r < 2 ^ (e - 1) then q * 2 ^ e
    else if 2 ^ (e - 1) < r then (q + 1) * 2 ^ e
    else if q % 2 = 0 then q * 2 ^ e else (q + 1) * 2 ^ e

/-- Binary64 rounding of an integer; see `flNat`. -/
def fl (n : Int) : Int :=
  if n < 0 then -(flNat (-n).toNat) else flNat n.toNat

/-- Decimal string of an integer-valued double, modelling `String(n)` and
`Number.prototype.toString` for integer values of magnitude below 1e21. -/
def jsIntToString (n : Int) : String := toString n

/-- JavaScript `String.prototype.toUpperCase`, restricted to its effect on
basic latin letters (the only letters the classifier recognises). -/
def jsToUpperCase (s : String) : String := ⟨s.data.map Char.toUpper⟩

/-- JavaScript `String.prototype.toLowerCase`, restricted to basic latin. -/
def jsToLowerCase (s : String) : String := ⟨s.data.map Char.toLower⟩

/-- White-space test used by `String.prototype.trim`: tab through carriage
return, and space. -/
def isJsWhitespace (c : Char) : Bool := (9 ≤ c.toNat && c.toNat ≤ 13) || c.toNat = 32

/-- JavaScript `String.prototype.trim`: strip leading and trailing
white space. -/
def jsTrim (s : String) : String :=
  ⟨((s.data.dropWhile isJsWhitespace).reverse.dropWhile isJsWhitespace).reverse⟩

mutual
/-- JavaScript `String(v)` on JSON-representable values: `null`, booleans
and numbers print their literal form, strings are unchanged, arrays join
their elements with commas (null elements joining as the empty string), and
plain objects print `[object Object]`. -/
def jsToString : JVal → String
  | .null => "null"
  | .bool true => "true"
  | .bool false => "false"
  | .num n => jsIntToString n
  | .str s => s
  | .arr xs => String.intercalate "," (jsArrElemStrings xs)
  | .obj => "[object Object]"

/-- Element strings used by `Array.prototype.toString` (via `join`):
null elements become the empty string. -/
def jsArrElemStrings : List JVal → List String
  | [] => []
  | .null :: rest => "" :: jsArrElemStrings rest
  | v :: rest => jsToString v :: jsArrElemStrings rest
end

/-- Test for `/^\d+$/`: one or more ASCII decimal digits. -/
def isDigitsStr (s : String) : Bool := !s.data.isEmpty && s.data.all Char.isDigit

/-- Test for `/^[a-zA-Z]$/`: exactly one ASCII letter. -/
def isSingleAlpha (s : String) : Bool :=
  match s.data with
  | [c] => c.isAlpha
  | _ => false

/-- Numeric value of an all-digit string. -/
def digitsToNat (l : List Char) : Nat := l.foldl (fun a c => 10 * a + (c.toNat - 48)) 0

/-- JavaScript `parseInt` on a string matching `/^\d+$/`: the denoted
integer, rounded to the nearest double. -/
def jsParseIntDigits (s : String) : Int := fl (digitsToNat s.data)

/-- The classification loop (`data.forEach(item => ...)` in both source
copies): each item is stringified and trimmed, then pushed onto exactly one
of the numbers, alphabets and special-characters accumulators, or silently
dropped when empty.  The three components are returned in first-seen
order. -/
def partitionTokens : List JVal → List Int × List String × List String
  | [] => ([], [], [])
  | item :: rest =>
    let str := jsTrim (jsToString item)
    let p := partitionTokens rest
    if isDigitsStr str then (jsParseIntDigits str :: p.1, p.2.1, p.2.2)
    else if isSingleAlpha str then (p.1, str :: p.2.1, p.2.2)
    else if str.length > 0 then (p.1, p.2.1, str :: p.2.2)
    else p

/-- Lexicographic comparison of character sequences by code unit, the
order JavaScript string comparison uses (for the basic-latin letters
compared here, code units and code points coincide). -/
def codeUnitLt : List Char → List Char → Bool
  | [], [] => false
  | [], _ :: _ => true
  | _ :: _, [] => false
  | c :: cs, d :: ds =>
    if c.toNat < d.toNat then true
    else if d.toNat < c.toNat then false
    else codeUnitLt cs ds

/-- JavaScript string comparison on the underlying code units. -/
def jsStringLt (a b : String) : Bool := codeUnitLt a.data b.data

/-- The alphabet comparator passed to `Array.prototype.sort` in both source
copies: uppercase before lowercase via the `a === a.toUpperCase()` tests,
otherwise `localeCompare`, which on the same-case ASCII letters compared
here agrees with code-unit comparison. -/
def jsCompare (a b : String) : Int :=
  if jsToUpperCase a = a ∧ jsToLowerCase b = b then -1
  else if jsToLowerCase a = a ∧ jsToUpperCase b = b then 1
  else if jsStringLt a b then -1 else if jsStringLt b a then 1 else 0

/-- Order induced by the comparator: `jsCompare a b ≤ 0`. -/
def jsLeP (a b : String) : Prop := jsCompare a b ≤ 0

instance : DecidableRel jsLeP := fun a b => inferInstanceAs (Decidable (jsCompare a b ≤ 0))

/-- Result of `alphabets.sort(comparator)`.  JavaScript sort with a
consistent comparator returns a permutation of the input that is sorted
with respect to it; insertion sort realises this (on the single-letter
strings that actually reach the comparator it is a total order, so the
sorted permutation is unique). -/
def sortAlphabets (l : List String) : List String := List.insertionSort jsLeP l

/-- Result of `numbers.reduce((acc, curr) => acc + curr, 0)`: a left fold
of binary64 additions starting from 0. -/
def jsSum (ns : List Int) : Int := ns.foldl (fun acc n => fl (acc + n)) 0

/-- The JSON record returned by both implementations.  `error` is present
only on failure; `processed_with` is added only by the client-side copy. -/
structure Result where
  is_success : Bool
  error : Option String
  user_id : String
  email : String
  roll_number : String
  odd_numbers : List String
  even_numbers : List String
  alphabets : List String
  special_characters : List String
  sum : String
  concat_string : String
  processed_with : Option String
deriving DecidableEq, Repr

/-- The failure-shaped record built in the catch block of server.js
(lines 78-92). -/
def mkFailureResult (e : String) : Result :=
  { is_success := false
    error := some e
    user_id := "demo_user_29082025"
    email := "demo@example.com"
    roll_number := "12345"
    odd_numbers := []
    even_numbers := []
    alphabets := []
    special_characters := []
    sum := "0"
    concat_string := ""
    processed_with := none }

/-- The token-processing block shared verbatim by server.js lines 25-76 and
app.js lines 289-340: classify every item, split numbers by parity and
render them back to decimal strings, sum the numbers with the binary64
accumulator, sort the letters with the case comparator, and join them into
the concatenated string. -/
def processItems (items : List JVal) : Result :=
  let p := partitionTokens items
  let numbers := p.1
  let oddNumbers := (numbers.filter (fun n => n % 2 != 0)).map jsIntToString
  let evenNumbers := (numbers.filter (fun n => n % 2 == 0)).map jsIntToString
  let sum := jsIntToString (jsSum numbers)
  let sortedAlphabets := sortAlphabets p.2.1
  let concatString := String.join sortedAlphabets
  { is_success := true
    error := none
    user_id := "demo_user_29082025"
    email := "demo@example.com"
    roll_number := "12345"
    odd_numbers := oddNumbers
    even_numbers := evenNumbers
    alphabets := sortedAlphabets
    special_characters := p.2.2
    sum := sum
    concat_string := concatString
    processed_with := none }

/-- Shape of the value handed to either implementation: `null` (or
undefined, on which reading `.data` throws a TypeError), a non-null
primitive (on which `.data` is undefined), or an object whose `data` field
is absent or holds a `JVal`. -/
inductive InputVal where
  | null
  | scalar
  | record (data : Option JVal)
deriving DecidableEq

/-- Reading `inputData.data`: throws on null, undefined on primitives,
field lookup on objects. -/
def getDataField : InputVal → Except String (Option JVal)
  | .null => .error "TypeError: cannot read data of null"
  | .scalar => .ok none
  | .record d => .ok d

/-- Evaluation of `inputData.data || []`: an absent or falsy field is
replaced by the empty array. -/
def dataOrEmpty : Option JVal → JVal
  | none => .arr []
  | some v => if jsTruthy v then v else .arr []

/-- Server-side `processArrayData` (src/backend/server.js lines 17-93).
The try/catch converts the only two possible exceptions, the TypeError on
`null.data` and the explicit `Input data must be an array` throw, into the
failure-shaped record. -/
def processArrayData (inp : InputVal) : Result :=
  match getDataField inp with
  | .error e => mkFailureResult e
  | .ok d =>
    match dataOrEmpty d with
    | .arr items => processItems items
    | _ => mkFailureResult "Input data must be an array"

/-- Client-side `processArrayClientSide` (src/frontend/app.js lines
287-343).  There is no try/catch and no Array.isArray check: reading
`.data` of null throws to the caller, and a truthy non-array `data` makes
`data.forEach` throw a TypeError to the caller.  On success the returned
record carries the extra `processed_with` marker. -/
def processArrayClientSide (inp : InputVal) : Except String Result :=
  match getDataField inp with
  | .error e => .error e
  | .ok d =>
    match dataOrEmpty d with
    | .arr items => .ok { processItems items with processed_with := some "client_side_fallback" }
    | _ => .error "TypeError: data.forEach is not a function"

/-- Letter tokens of an input, in first-seen order (the `alphabets`
accumulator before sorting). -/
def letterTokens (items : List JVal) : List String := (partitionTokens items).2.1

/-- Exact integer values denoted by the numeric tokens of an input, in
first-seen order, before any binary64 rounding. -/
def exactNumericValues : List JVal → List Int
  | [] => []
  | item :: rest =>
    let str := jsTrim (jsToString item)
    if isDigitsStr str then (digitsToNat str.data : Int) :: exactNumericValues rest
    else exactNumericValues rest

/-- Exact arithmetic sum of the integer values of all numeric tokens. -/
def exactNumericSum (items : List JVal) : Int := (exactNumericValues items).sum

/-- Modelled from the spec: the key function of section 4 step 6,
`key(c) = (0, c)` if `c` is uppercase else `(1, c)`, compared
lexicographically, so that every uppercase letter orders before every
lowercase letter and letters of the same case order by code point.  The
relation is stated on the single-letter strings held in `alphabets`. -/
def specKeyLE (a b : String) : Prop :=
  match a.data, b.data with
  | [c], [d] =>
    (if c.isUpper then 0 else 1) < (if d.isUpper then (0 : Nat) else 1) ∨
      ((if c.isUpper then (0 : Nat) else 1) = (if d.isUpper then 0 else 1) ∧ c.toNat ≤ d.toNat)
  | _, _ => False

end ArrayProc

namespace ArrayProc

deriving instance DecidableEq for Except

/-- Expected success record for an empty token sequence: all sequence
fields empty, sum "0", concatenation "". -/
def emptySuccessResult : Result :=
  { is_success := true
    error := none
    user_id := "demo_user_29082025"
    email := "demo@example.com"
    roll_number := "12345"
    odd_numbers := []
    even_numbers := []
    alphabets := []
    special_characters := []
    sum := "0"
    concat_string := ""
    processed_with := none }

/-- C7: for the empty input sequence, whether the data field holds an empty
array or is absent entirely, the classifier returns the success Result with
is_success true, all four array fields empty, sum "0" and concat_string "". -/
theorem c7_empty_input_succeeds :
    processArrayData (.record (some (.arr []))) = emptySuccessResult ∧
    processArrayData (.record none) = emptySuccessResult := by
  decide

/-- C10: a present but falsy non-array data field (null, false, 0 or the
empty string) is not an error: `inputData.data || []` replaces it by the
empty sequence and the classifier succeeds with the empty success record. -/
theorem c10_falsy_data_is_empty_sequence (v : JVal) (h : jsTruthy v = false) :
    processArrayData (.record (some v)) = emptySuccessResult := by
  have hv : dataOrEmpty (some v) = .arr [] := by simp [dataOrEmpty, h]
  simp only [processArrayData, getDataField, hv]
  decide

/-- Witness for C10 at the concrete falsy value `""`. -/
theorem c10_witness :
    jsTruthy (JVal.str "") = false ∧
    processArrayData (.record (some (.str ""))) = emptySuccessResult :=
  ⟨by decide, c10_falsy_data_is_empty_sequence (.str "") (by decide)⟩

/-- C1 fails as stated: the data field may be present and non-sequence-shaped
(here the string "" and the number 0) and the classifier still returns a
success Result, because `inputData.data || []` turns every falsy value into
the empty array before the Array.isArray check. -/
theorem c1_counterexample :
    (processArrayData (.record (some (.str "")))).is_success = true ∧
    (processArrayData (.record (some (.num 0)))).is_success = true := by
  decide

/-- C1 amended: a present, truthy, non-array data field makes the
classifier return the failure record: is_success false, the error message,
all sequence fields empty, sum "0" and concatenation "". -/
theorem c1_truthy_non_array_fails (v : JVal) (h1 : jsTruthy v = true) (h2 : v.isArr = false) :
    processArrayData (.record (some v)) = mkFailureResult "Input data must be an array" := by
  cases v <;> simp_all [processArrayData, getDataField, dataOrEmpty, jsTruthy, JVal.isArr]

/-- Witness for C1 amended at the concrete value `"x"`. -/
theorem c1_witness :
    jsTruthy (JVal.str "x") = true ∧ (JVal.str "x").isArr = false ∧
    processArrayData (.record (some (.str "x"))) = mkFailureResult "Input data must be an array" :=
  ⟨by decide, by decide, c1_truthy_non_array_fails (.str "x") (by decide) (by decide)⟩

/-- Failure records produced by the catch block have the failure shape. -/
theorem mkFailureResult_shape (e : String) :
    (mkFailureResult e).is_success = false ∧ (mkFailureResult e).error.isSome = true ∧
    (mkFailureResult e).odd_numbers = [] ∧ (mkFailureResult e).even_numbers = [] ∧
    (mkFailureResult e).alphabets = [] ∧ (mkFailureResult e).special_characters = [] ∧
    (mkFailureResult e).sum = "0" ∧ (mkFailureResult e).concat_string = "" :=
  ⟨rfl, rfl, rfl, rfl, rfl, rfl, rfl, rfl⟩

/-- C2 fails as stated: the two implementations do not return identical
results for every input.  On the empty array the client-side record carries
the extra processed_with marker, so the records differ; and on a truthy
non-array data field the client-side copy throws a TypeError to its caller
while the server-side copy returns a failure record. -/
theorem c2_counterexample :
    processArrayClientSide (.record (some (.arr []))) ≠
      .ok (processArrayData (.record (some (.arr [])))) ∧
    processArrayClientSide (.record (some (.str "x"))) =
      .error "TypeError: data.forEach is not a function" ∧
    (processArrayData (.record (some (.str "x")))).is_success = false := by
  decide

/-- Inputs on which the client-side copy does not throw: everything except
a null input and a present, truthy, non-array data field. -/
def arrayShapedData : InputVal → Bool
  | .null => false
  | .scalar => true
  | .record none => true
  | .record (some v) => !jsTruthy v || v.isArr

/-- C2 amended: whenever the data field is absent, falsy or an array, the
client-side fallback returns exactly the server-side record except for the
processed_with marker it adds; on the remaining inputs the client-side
copy throws while the server returns a failure record (see the
counterexample). -/
theorem c2_client_matches_server_on_array_shaped (inp : InputVal)
    (h : arrayShapedData inp = true) :
    processArrayClientSide inp =
      .ok { processArrayData inp with processed_with := some "client_side_fallback" } := by
  cases inp with
  | null => simp [arrayShapedData] at h
  | scalar => decide
  | record d =>
    cases d with
    | none => decide
    | some v =>
      by_cases ht : jsTruthy v = true
      · simp only [arrayShapedData, ht, Bool.not_true, Bool.false_or] at h
        cases v <;> simp_all [processArrayClientSide, processArrayData, getDataField,
          dataOrEmpty, JVal.isArr]
      · rw [Bool.not_eq_true] at ht
        simp [processArrayClientSide, processArrayData, getDataField, dataOrEmpty, ht]

/-- Witness for C2 amended at a concrete one-element array input. -/
theorem c2_witness :
    arrayShapedData (.record (some (.arr [.str "a"]))) = true ∧
    processArrayClientSide (.record (some (.arr [.str "a"]))) =
      .ok { processArrayData (.record (some (.arr [.str "a"]))) with
            processed_with := some "client_side_fallback" } :=
  ⟨by decide, c2_client_matches_server_on_array_shaped (.record (some (.arr [.str "a"])))
    (by decide)⟩

/-- C3 fails as stated: the claim covers both implementations of the
classifier, but the client-side copy (no try/catch) throws to its caller on
a null input and on a truthy non-array data field, instead of returning a
tagged Result. -/
theorem c3_counterexample :
    processArrayClientSide .null = .error "TypeError: cannot read data of null" ∧
    processArrayClientSide (.record (some (.num 5))) =
      .error "TypeError: data.forEach is not a function" := by
  decide

/-- C3 amended: the server-side implementation is total: for every input of
any shape (null, primitive, missing field, any data value) it never throws
and returns a tagged success-or-failure record, failures carrying an error
message and the empty defaults.  The client-side copy is not total: on
every input outside the array-shaped domain (a null input, or a present
truthy non-array data field) it throws a TypeError to its caller. -/
theorem c3_total_tagged_result (inp : InputVal) :
    (((processArrayData inp).is_success = true ∧ (processArrayData inp).error = none) ∨
      ((processArrayData inp).is_success = false ∧ (processArrayData inp).error.isSome = true ∧
        (processArrayData inp).odd_numbers = [] ∧ (processArrayData inp).even_numbers = [] ∧
        (processArrayData inp).alphabets = [] ∧ (processArrayData inp).special_characters = [] ∧
        (processArrayData inp).sum = "0" ∧ (processArrayData inp).concat_string = "")) ∧
    (arrayShapedData inp = false →
      processArrayClientSide inp = .error "TypeError: cannot read data of null" ∨
      processArrayClientSide inp = .error "TypeError: data.forEach is not a function") := by
  constructor
  · cases inp with
    | null => exact Or.inr (mkFailureResult_shape _)
    | scalar => exact Or.inl ⟨rfl, rfl⟩
    | record d =>
      simp only [processArrayData, getDataField]
      cases dataOrEmpty d with
      | null => exact Or.inr (mkFailureResult_shape _)
      | bool b => exact Or.inr (mkFailureResult_shape _)
      | num n => exact Or.inr (mkFailureResult_shape _)
      | str s => exact Or.inr (mkFailureResult_shape _)
      | arr items => exact Or.inl ⟨rfl, rfl⟩
      | obj => exact Or.inr (mkFailureResult_shape _)
  · intro h
    cases inp with
    | null => exact Or.inl rfl
    | scalar => simp [arrayShapedData] at h
    | record d =>
      cases d with
      | none => simp [arrayShapedData] at h
      | some v =>
        rcases Bool.or_eq_false_iff.mp h with ⟨hnt, hna⟩
        have ht : jsTruthy v = true := by
          simpa using hnt
        refine Or.inr ?_
        cases v <;> simp_all [processArrayClientSide, getDataField, dataOrEmpty,
          jsTruthy, JVal.isArr]

/-- Witness for C3 amended at the concrete non-array value 5, where the
client-side copy throws. -/
theorem c3_witness :
    arrayShapedData (.record (some (.num 5))) = false ∧
    (processArrayClientSide (.record (some (.num 5))) =
        .error "TypeError: cannot read data of null" ∨
      processArrayClientSide (.record (some (.num 5))) =
        .error "TypeError: data.forEach is not a function") :=
  ⟨by decide, (c3_total_tagged_result (.record (some (.num 5)))).2 (by decide)⟩

end ArrayProc

namespace ArrayProc

/-- Reading an array-valued data field reaches the token-processing block
directly. -/
theorem processArrayData_record_arr (items : List JVal) :
    processArrayData (.record (some (.arr items))) = processItems items := rfl

theorem processItems_odd_numbers (items : List JVal) :
    (processItems items).odd_numbers =
      ((partitionTokens items).1.filter fun n => n % 2 != 0).map jsIntToString := rfl

theorem processItems_even_numbers (items : List JVal) :
    (processItems items).even_numbers =
      ((partitionTokens items).1.filter fun n => n % 2 == 0).map jsIntToString := rfl

theorem processItems_sum (items : List JVal) :
    (processItems items).sum = jsIntToString (jsSum (partitionTokens items).1) := rfl

theorem processItems_alphabets (items : List JVal) :
    (processItems items).alphabets = sortAlphabets (partitionTokens items).2.1 := rfl

theorem processItems_concat_string (items : List JVal) :
    (processItems items).concat_string = String.join (sortAlphabets (partitionTokens items).2.1) :=
  rfl

/-- The numbers accumulator holds the binary64 roundings of the exact
integer values of the numeric tokens, in first-seen order. -/
theorem partition_fst_eq_map_fl (items : List JVal) :
    (partitionTokens items).1 = (exactNumericValues items).map fl := by
  induction items with
  | nil => rfl
  | cons item rest ih =>
    simp only [partitionTokens, exactNumericValues]
    split_ifs <;> simp [ih, jsParseIntDigits]

/-- Exact numeric token values are non-negative. -/
theorem exactNumericValues_nonneg (items : List JVal) :
    ∀ v ∈ exactNumericValues items, 0 ≤ v := by
  induction items with
  | nil => intro v hv; cases hv
  | cons item rest ih =>
    intro v hv
    simp only [exactNumericValues] at hv
    split_ifs at hv with h
    · rcases List.mem_cons.mp hv with h1 | h2
      · subst h1; exact Int.ofNat_nonneg _
      · exact ih v h2
    · exact ih v hv

/-- Binary64 rounding is the identity on the exactly representable range. -/
theorem fl_eq_self (n : Int) (h0 : 0 ≤ n) (h : n < 2 ^ 53) : fl n = n := by
  rw [fl, if_neg (by omega)]
  rw [flNat, if_pos (by omega)]
  omega

/-- A left fold of binary64 additions of non-negative integers is exact as
long as the exact total stays below 2^53. -/
theorem foldl_fl_add_exact (l : List Int) : ∀ acc : Int, 0 ≤ acc → (∀ x ∈ l, 0 ≤ x) →
    acc + l.sum < 2 ^ 53 → l.foldl (fun a n => fl (a + n)) acc = acc + l.sum := by
  induction l with
  | nil => intro acc _ _ _; simp
  | cons x t ih =>
    intro acc hacc hnn hlt
    have hx : 0 ≤ x := hnn x (List.mem_cons_self x t)
    have htnn : ∀ y ∈ t, 0 ≤ y := fun y hy => hnn y (List.mem_cons_of_mem x hy)
    have hts : 0 ≤ t.sum := List.sum_nonneg htnn
    have hsum : x + t.sum = (x :: t).sum := (List.sum_cons).symm
    have hax : acc + x < 2 ^ 53 := by
      rw [List.sum_cons] at hlt; omega
    simp only [List.foldl_cons]
    rw [fl_eq_self (acc + x) (by omega) hax]
    rw [ih (acc + x) (by omega) htnn (by rw [List.sum_cons] at hlt; omega)]
    rw [List.sum_cons]; ring

/-- The reduce-based sum is exact below 2^53. -/
theorem jsSum_exact (l : List Int) (hnn : ∀ x ∈ l, 0 ≤ x) (h : l.sum < 2 ^ 53) :
    jsSum l = l.sum := by
  have := foldl_fl_add_exact l 0 le_rfl hnn (by omega)
  simpa [jsSum] using this

/-- Below the float limit, the parsed numbers are the exact token values. -/
theorem partition_fst_exact (items : List JVal) (h : exactNumericSum items < 2 ^ 53) :
    (partitionTokens items).1 = exactNumericValues items := by
  rw [partition_fst_eq_map_fl]
  have hnn := exactNumericValues_nonneg items
  have hb : ∀ v ∈ exactNumericValues items, fl v = v := by
    intro v hv
    have hle : v ≤ (exactNumericValues items).sum :=
      List.single_le_sum hnn v hv
    exact fl_eq_self v (hnn v hv) (by
      have : (exactNumericValues items).sum < 2 ^ 53 := h
      omega)
  calc (exactNumericValues items).map fl = (exactNumericValues items).map id :=
        List.map_congr_left hb
    _ = exactNumericValues items := List.map_id _

/-- C6 fails as stated: with the native binary64 accumulator, the token
"9007199254740993" (2^53 + 1) is parsed to 9007199254740992, so the sum
field is not the decimal representation of the exact arithmetic sum. -/
theorem c6_counterexample :
    exactNumericSum [JVal.str "9007199254740993"] = 9007199254740993 ∧
    (processArrayData (.record (some (.arr [JVal.str "9007199254740993"])))).sum =
      "9007199254740992" ∧
    (processArrayData (.record (some (.arr [JVal.str "9007199254740993"])))).sum ≠
      jsIntToString (exactNumericSum [JVal.str "9007199254740993"]) := by
  decide

/-- C6 amended: the sum field is the decimal string of the exact arithmetic
sum of the integer values of all numeric tokens whenever that exact sum is
below 2^53 (the exactly representable integer range of the binary64
accumulator the code uses); in particular it is "0" when there are no
numeric tokens.  Beyond 2^53 the accumulator can round (see the
counterexample). -/
theorem c6_sum_exact_below_float_limit (items : List JVal)
    (h : exactNumericSum items < 2 ^ 53) :
    (processArrayData (.record (some (.arr items)))).sum =
      jsIntToString (exactNumericSum items) := by
  rw [processArrayData_record_arr, processItems_sum, partition_fst_exact items h]
  rw [jsSum_exact _ (exactNumericValues_nonneg items) h]
  rfl

/-- Witness for C6 amended on a small concrete input. -/
theorem c6_witness :
    exactNumericSum [JVal.str "007", JVal.str "2"] < 2 ^ 53 ∧
    (processArrayData (.record (some (.arr [JVal.str "007", JVal.str "2"])))).sum =
      jsIntToString (exactNumericSum [JVal.str "007", JVal.str "2"]) :=
  ⟨by decide, c6_sum_exact_below_float_limit [JVal.str "007", JVal.str "2"] (by decide)⟩

end ArrayProc

namespace ArrayProc

/-- Parity is a partition: the odd-filtered and even-filtered numbers
together are a permutation of the numbers. -/
theorem odd_even_filter_perm (ns : List Int) :
    ((ns.filter fun n => n % 2 != 0) ++ (ns.filter fun n => n % 2 == 0)).Perm ns := by
  have hp : (fun n : Int => n % 2 == 0) = fun n => !(n % 2 != 0) := by
    funext n; simp [bne]
  rw [hp]
  exact List.filter_append_perm _ ns

/-- The rendered odd and even lists together are a permutation of the
rendered numbers. -/
theorem odd_even_map_perm (items : List JVal) :
    ((processItems items).odd_numbers ++ (processItems items).even_numbers).Perm
      ((partitionTokens items).1.map jsIntToString) := by
  rw [processItems_odd_numbers, processItems_even_numbers, ← List.map_append]
  exact (odd_even_filter_perm _).map jsIntToString

theorem isDigitsStr_length_pos (s : String) (h : isDigitsStr s = true) : 0 < s.length := by
  obtain ⟨l⟩ := s
  simp only [isDigitsStr, Bool.and_eq_true, Bool.not_eq_eq_eq_not, Bool.not_false] at h
  rcases h with ⟨h1, _⟩
  cases l with
  | nil => simp [List.isEmpty] at h1
  | cons c cs => simp [String.length]

theorem isSingleAlpha_length_pos (s : String) (h : isSingleAlpha s = true) : 0 < s.length := by
  obtain ⟨l⟩ := s
  match hl : l with
  | [c] => simp [String.length]
  | [] => simp [isSingleAlpha] at h
  | c :: d :: cs => simp [isSingleAlpha] at h

/-- Every non-empty trimmed token lands in exactly one accumulator: the
three accumulator lengths add up to the number of non-empty trimmed
tokens. -/
theorem partition_token_count (items : List JVal) :
    (partitionTokens items).1.length + (partitionTokens items).2.1.length +
      (partitionTokens items).2.2.length =
    ((items.map fun it => jsTrim (jsToString it)).filter fun s => s.length != 0).length := by
  induction items with
  | nil => rfl
  | cons item rest ih =>
    by_cases h1 : isDigitsStr (jsTrim (jsToString item)) = true
    · have hpos := isDigitsStr_length_pos _ h1
      have hf : ((jsTrim (jsToString item)).length != 0) = true := by
        simp only [bne_iff_ne, ne_eq, decide_eq_true_eq]; omega
      simp only [partitionTokens, List.map_cons, List.filter_cons, h1, if_true, hf,
        List.length_cons]
      omega
    · by_cases h2 : isSingleAlpha (jsTrim (jsToString item)) = true
      · have hpos := isSingleAlpha_length_pos _ h2
        have hf : ((jsTrim (jsToString item)).length != 0) = true := by
          simp only [bne_iff_ne, ne_eq, decide_eq_true_eq]; omega
        simp [partitionTokens, List.map_cons, List.filter_cons, h1, h2, hf,
          List.length_cons]
        omega
      · by_cases h3 : (jsTrim (jsToString item)).length > 0
        · have hf : ((jsTrim (jsToString item)).length != 0) = true := by
            simp only [bne_iff_ne, ne_eq, decide_eq_true_eq]; omega
          simp [partitionTokens, List.map_cons, List.filter_cons, h1, h2, h3, hf,
            List.length_cons]
          omega
        · have hf : ((jsTrim (jsToString item)).length != 0) = false := by
            simp only [bne_eq_false_iff_eq, decide_eq_true_eq]; omega
          simp [partitionTokens, List.map_cons, List.filter_cons, h1, h2, h3, hf,
            List.length_cons]
          simpa using ih
end ArrayProc

namespace ArrayProc

/-- C4 fails as stated: on ["9007199254740992", "1"] the integer sum of the
odd values (1) plus the integer sum of the even values (9007199254740992)
is 9007199254740993, but the binary64 accumulator rounds the fold and the
sum field holds "9007199254740992". -/
theorem c4_counterexample :
    ((partitionTokens [JVal.str "9007199254740992", JVal.str "1"]).1.filter
        fun n => n % 2 != 0).sum +
      ((partitionTokens [JVal.str "9007199254740992", JVal.str "1"]).1.filter
        fun n => n % 2 == 0).sum = 9007199254740993 ∧
    (processArrayData (.record (some (.arr [JVal.str "9007199254740992",
      JVal.str "1"])))).sum = "9007199254740992" ∧
    jsIntToString 9007199254740993 ≠ "9007199254740992" := by
  decide

/-- C4 amended: every non-empty trimmed token is assigned to exactly one of
the numeric, letter and special categories (the accumulator lengths add up
to the number of non-empty trimmed tokens); the concatenation of
odd_numbers and even_numbers is, as a multiset, the multiset of all
rendered numeric tokens, and each of the two lists keeps first-seen order
(each is a sublist of the rendered numbers in encounter order); the
integer sum of the odd values plus the integer sum of the even values
equals the value of the sum field whenever the exact numeric total is
below 2^53 (beyond that the binary64 accumulator can round, see the
counterexample). -/
theorem c4_partition_invariants (items : List JVal) :
    ((partitionTokens items).1.length + (partitionTokens items).2.1.length +
        (partitionTokens items).2.2.length =
      ((items.map fun it => jsTrim (jsToString it)).filter fun s => s.length != 0).length) ∧
    (((processArrayData (.record (some (.arr items)))).odd_numbers ++
        (processArrayData (.record (some (.arr items)))).even_numbers).Perm
      ((partitionTokens items).1.map jsIntToString)) ∧
    ((processArrayData (.record (some (.arr items)))).odd_numbers.Sublist
      ((partitionTokens items).1.map jsIntToString)) ∧
    ((processArrayData (.record (some (.arr items)))).even_numbers.Sublist
      ((partitionTokens items).1.map jsIntToString)) ∧
    (exactNumericSum items < 2 ^ 53 →
      jsIntToString (((partitionTokens items).1.filter fun n => n % 2 != 0).sum +
          ((partitionTokens items).1.filter fun n => n % 2 == 0).sum) =
        (processArrayData (.record (some (.arr items)))).sum) := by
  refine ⟨partition_token_count items, ?_, ?_, ?_, ?_⟩
  · rw [processArrayData_record_arr]
    exact odd_even_map_perm items
  · rw [processArrayData_record_arr, processItems_odd_numbers]
    exact ((partitionTokens items).1.filter_sublist).map jsIntToString
  · rw [processArrayData_record_arr, processItems_even_numbers]
    exact ((partitionTokens items).1.filter_sublist).map jsIntToString
  · intro h
    rw [processArrayData_record_arr, processItems_sum]
    have hsplit : ((partitionTokens items).1.filter fun n => n % 2 != 0).sum +
        ((partitionTokens items).1.filter fun n => n % 2 == 0).sum =
        (partitionTokens items).1.sum := by
      rw [← List.sum_append]
      exact (odd_even_filter_perm (partitionTokens items).1).sum_eq
    rw [hsplit, partition_fst_exact items h,
      jsSum_exact _ (exactNumericValues_nonneg items) h]

/-- Witness for C4 amended on a small concrete input whose exact numeric
total discharges the bound of the sum conjunct. -/
theorem c4_witness :
    exactNumericSum [JVal.str "1", JVal.str "2", JVal.str "a", JVal.str "#"] < 2 ^ 53 ∧
    jsIntToString (((partitionTokens [JVal.str "1", JVal.str "2", JVal.str "a",
        JVal.str "#"]).1.filter fun n => n % 2 != 0).sum +
        ((partitionTokens [JVal.str "1", JVal.str "2", JVal.str "a",
          JVal.str "#"]).1.filter fun n => n % 2 == 0).sum) =
      (processArrayData (.record (some (.arr [JVal.str "1", JVal.str "2", JVal.str "a",
        JVal.str "#"])))).sum :=
  ⟨by decide, (c4_partition_invariants
    [JVal.str "1", JVal.str "2", JVal.str "a", JVal.str "#"]).2.2.2.2 (by decide)⟩

/-- A token "007" contributes the parsed value 7 to the numbers
accumulator. -/
theorem seven_mem_partition (items : List JVal) (h : JVal.str "007" ∈ items) :
    (7 : Int) ∈ (partitionTokens items).1 := by
  induction items with
  | nil => cases h
  | cons item rest ih =>
    rcases List.mem_cons.mp h with h1 | h2
    · have he : (partitionTokens (JVal.str "007" :: rest)).1 =
          7 :: (partitionTokens rest).1 := rfl
      rw [← h1, he]
      exact List.mem_cons_self _ _
    · have hm := ih h2
      simp only [partitionTokens]
      split_ifs <;> simp [hm]

/-- C8 fails as stated: 7 is odd, so the token "007" is rendered as "7" in
odd_numbers, not classified even. -/
theorem c8_counterexample :
    "7" ∈ (processArrayData (.record (some (.arr [JVal.str "007"])))).odd_numbers ∧
    (processArrayData (.record (some (.arr [JVal.str "007"])))).even_numbers = [] := by
  decide

/-- C8 amended: every numeric token is rendered in the output in the parsed
integer's decimal form rather than its original string form (the odd and
even lists are, as a multiset, the rendered parsed values); in particular,
for every input containing the token "007", that token appears in the
output as "7", is classified odd, and contributes the parsed value 7 to the
numbers that are summed. -/
theorem c8_leading_zeros_canonical (items : List JVal) (h : JVal.str "007" ∈ items) :
    (((processArrayData (.record (some (.arr items)))).odd_numbers ++
        (processArrayData (.record (some (.arr items)))).even_numbers).Perm
      ((partitionTokens items).1.map jsIntToString)) ∧
    "7" ∈ (processArrayData (.record (some (.arr items)))).odd_numbers ∧
    (7 : Int) ∈ (partitionTokens items).1 := by
  have h7 := seven_mem_partition items h
  refine ⟨?_, ?_, h7⟩
  · rw [processArrayData_record_arr]
    exact odd_even_map_perm items
  · rw [processArrayData_record_arr, processItems_odd_numbers]
    have : (7 : Int) ∈ (partitionTokens items).1.filter fun n => n % 2 != 0 :=
      List.mem_filter.mpr ⟨h7, by decide⟩
    exact List.mem_map.mpr ⟨7, this, rfl⟩

/-- Witness for C8 amended at the one-element input ["007"]. -/
theorem c8_witness :
    JVal.str "007" ∈ [JVal.str "007"] ∧
    ((((processArrayData (.record (some (.arr [JVal.str "007"])))).odd_numbers ++
        (processArrayData (.record (some (.arr [JVal.str "007"])))).even_numbers).Perm
      ((partitionTokens [JVal.str "007"]).1.map jsIntToString)) ∧
    "7" ∈ (processArrayData (.record (some (.arr [JVal.str "007"])))).odd_numbers ∧
    (7 : Int) ∈ (partitionTokens [JVal.str "007"]).1) :=
  ⟨by decide, c8_leading_zeros_canonical [JVal.str "007"] (by decide)⟩

end ArrayProc

namespace ArrayProc

theorem char_isLower_iff (c : Char) : c.isLower = true ↔ 97 ≤ c.toNat ∧ c.toNat ≤ 122 := by
  simp only [Char.isLower, Bool.and_eq_true, decide_eq_true_eq]
  exact Iff.rfl

theorem char_isUpper_iff (c : Char) : c.isUpper = true ↔ 65 ≤ c.toNat ∧ c.toNat ≤ 90 := by
  simp only [Char.isUpper, Bool.and_eq_true, decide_eq_true_eq]
  exact Iff.rfl

theorem char_isAlpha_iff (c : Char) :
    c.isAlpha = true ↔ (65 ≤ c.toNat ∧ c.toNat ≤ 90) ∨ (97 ≤ c.toNat ∧ c.toNat ≤ 122) := by
  simp only [Char.isAlpha, Bool.or_eq_true, char_isUpper_iff, char_isLower_iff]

theorem char_toNat_inj {c d : Char} (h : c.toNat = d.toNat) : c = d :=
  Char.ext (UInt32.toNat.inj h)

theorem char_lt_iff (c d : Char) : c < d ↔ c.toNat < d.toNat := Iff.rfl

theorem char_ofNat_toNat_of_lt (m : Nat) (h : m < 55296) : (Char.ofNat m).toNat = m := by
  rw [Char.ofNat, dif_pos (Or.inl h)]
  rfl

theorem char_toUpper_eq_self_iff (c : Char) (hc : c.isAlpha = true) :
    (c.toUpper = c ↔ c.isUpper = true) := by
  rcases (char_isAlpha_iff c).mp hc with hU | hL
  · have h1 : c.toUpper = c := by
      rw [Char.toUpper, if_neg (by omega)]
    have h2 : c.isUpper = true := (char_isUpper_iff c).mpr hU
    simp [h1, h2]
  · have h1 : c.toUpper ≠ c := by
      rw [Char.toUpper, if_pos (by omega)]
      intro hcon
      have := congrArg Char.toNat hcon
      rw [char_ofNat_toNat_of_lt _ (by omega)] at this
      omega
    have h2 : c.isUpper = false := by
      rw [Bool.eq_false_iff]
      intro hcon
      have := (char_isUpper_iff c).mp hcon
      omega
    simp [h1, h2]

theorem char_toLower_eq_self_iff (c : Char) (hc : c.isAlpha = true) :
    (c.toLower = c ↔ c.isLower = true) := by
  rcases (char_isAlpha_iff c).mp hc with hU | hL
  · have h1 : c.toLower ≠ c := by
      rw [Char.toLower, if_pos (by omega)]
      intro hcon
      have := congrArg Char.toNat hcon
      rw [char_ofNat_toNat_of_lt _ (by omega)] at this
      omega
    have h2 : c.isLower = false := by
      rw [Bool.eq_false_iff]
      intro hcon
      have := (char_isLower_iff c).mp hcon
      omega
    simp [h1, h2]
  · have h1 : c.toLower = c := by
      rw [Char.toLower, if_neg (by omega)]
    have h2 : c.isLower = true := (char_isLower_iff c).mpr hL
    simp [h1, h2]

end ArrayProc

namespace ArrayProc

theorem jsStringLt_singleton_iff (c d : Char) :
    jsStringLt (String.mk [c]) (String.mk [d]) = true ↔ c.toNat < d.toNat := by
  rcases lt_trichotomy c.toNat d.toNat with h | h | h <;>
    simp [jsStringLt, codeUnitLt, h] <;> omega

theorem jsToUpperCase_singleton_iff (c : Char) :
    (jsToUpperCase (String.mk [c]) = String.mk [c]) ↔ c.toUpper = c := by
  simp [jsToUpperCase, String.ext_iff]

theorem jsToLowerCase_singleton_iff (c : Char) :
    (jsToLowerCase (String.mk [c]) = String.mk [c]) ↔ c.toLower = c := by
  simp [jsToLowerCase, String.ext_iff]

theorem char_isLower_eq_not_isUpper (c : Char) (hc : c.isAlpha = true) :
    c.isLower = !c.isUpper := by
  rcases (char_isAlpha_iff c).mp hc with h | h
  · have h1 : c.isUpper = true := (char_isUpper_iff c).mpr h
    have h2 : c.isLower = false := by
      rw [Bool.eq_false_iff]
      intro hco
      have := (char_isLower_iff c).mp hco
      omega
    rw [h1, h2]
    rfl
  · have h1 : c.isLower = true := (char_isLower_iff c).mpr h
    have h2 : c.isUpper = false := by
      rw [Bool.eq_false_iff]
      intro hco
      have := (char_isUpper_iff c).mp hco
      omega
    rw [h1, h2]
    rfl

/-- On single letters the comparator order coincides with the spec key
order stated through `isUpper` and code points. -/
theorem jsLeP_singleton_iff (c d : Char) (hc : c.isAlpha = true) (hd : d.isAlpha = true) :
    jsLeP (String.mk [c]) (String.mk [d]) ↔
      ((c.isUpper = true ∧ d.isUpper = false) ∨
        (c.isUpper = d.isUpper ∧ c.toNat ≤ d.toNat)) := by
  have huc := (jsToUpperCase_singleton_iff c).trans (char_toUpper_eq_self_iff c hc)
  have hud := (jsToUpperCase_singleton_iff d).trans (char_toUpper_eq_self_iff d hd)
  have hlc := (jsToLowerCase_singleton_iff c).trans (char_toLower_eq_self_iff c hc)
  have hld := (jsToLowerCase_singleton_iff d).trans (char_toLower_eq_self_iff d hd)
  rw [char_isLower_eq_not_isUpper c hc] at hlc
  rw [char_isLower_eq_not_isUpper d hd] at hld
  unfold jsLeP jsCompare
  by_cases h1 : c.isUpper = true <;> by_cases h2 : d.isUpper = true
  · rw [if_neg (fun hand => by simp [hld, h2] at hand),
      if_neg (fun hand => by simp [hlc, h1] at hand)]
    rcases lt_trichotomy c.toNat d.toNat with h | h | h
    · rw [if_pos ((jsStringLt_singleton_iff c d).mpr h)]
      simp [h1, h2] <;> omega
    · rw [if_neg (by simp [jsStringLt_singleton_iff]; omega),
        if_neg (by simp [jsStringLt_singleton_iff]; omega)]
      simp [h1, h2] <;> omega
    · rw [if_neg (by simp [jsStringLt_singleton_iff]; omega),
        if_pos ((jsStringLt_singleton_iff d c).mpr h)]
      simp [h1, h2] <;> omega
  · rw [if_pos (And.intro (huc.mpr h1) (by simp [hld, h2]))]
    simp [h1, h2]
  · rw [if_neg (fun hand => by simp [huc, h1] at hand),
      if_pos (And.intro (by simp [hlc, h1]) (hud.mpr h2))]
    simp [h1, h2]
  · rw [if_neg (fun hand => by simp [huc, h1] at hand),
      if_neg (fun hand => by simp [hud, h2] at hand)]
    rcases lt_trichotomy c.toNat d.toNat with h | h | h
    · rw [if_pos ((jsStringLt_singleton_iff c d).mpr h)]
      simp [h1, h2] <;> omega
    · rw [if_neg (by simp [jsStringLt_singleton_iff]; omega),
        if_neg (by simp [jsStringLt_singleton_iff]; omega)]
      simp [h1, h2] <;> omega
    · rw [if_neg (by simp [jsStringLt_singleton_iff]; omega),
        if_pos ((jsStringLt_singleton_iff d c).mpr h)]
      simp [h1, h2] <;> omega

end ArrayProc

namespace ArrayProc

theorem isSingleAlpha_iff (s : String) :
    isSingleAlpha s = true ↔ ∃ c, s = String.mk [c] ∧ c.isAlpha = true := by
  obtain ⟨l⟩ := s
  cases l with
  | nil => simp [isSingleAlpha, String.ext_iff]
  | cons c cs =>
    cases cs with
    | nil =>
      simp only [isSingleAlpha, String.ext_iff]
      constructor
      · intro h
        exact ⟨c, by simp, h⟩
      · rintro ⟨d, he, h⟩
        simp only [List.cons.injEq, and_true] at he
        rw [he]
        exact h
    | cons d ds => simp [isSingleAlpha, String.ext_iff]

theorem jsLeP_total_alpha (a b : String) (ha : isSingleAlpha a = true)
    (hb : isSingleAlpha b = true) : jsLeP a b ∨ jsLeP b a := by
  obtain ⟨c, rfl, hc⟩ := (isSingleAlpha_iff a).mp ha
  obtain ⟨d, rfl, hd⟩ := (isSingleAlpha_iff b).mp hb
  rw [jsLeP_singleton_iff c d hc hd, jsLeP_singleton_iff d c hd hc]
  by_cases h1 : c.isUpper = true <;> by_cases h2 : d.isUpper = true <;>
    simp [h1, h2] <;> omega

theorem jsLeP_trans_alpha (a b c : String) (ha : isSingleAlpha a = true)
    (hb : isSingleAlpha b = true) (hc : isSingleAlpha c = true)
    (h1 : jsLeP a b) (h2 : jsLeP b c) : jsLeP a c := by
  obtain ⟨x, rfl, hx⟩ := (isSingleAlpha_iff a).mp ha
  obtain ⟨y, rfl, hy⟩ := (isSingleAlpha_iff b).mp hb
  obtain ⟨z, rfl, hz⟩ := (isSingleAlpha_iff c).mp hc
  rw [jsLeP_singleton_iff x y hx hy] at h1
  rw [jsLeP_singleton_iff y z hy hz] at h2
  rw [jsLeP_singleton_iff x z hx hz]
  by_cases hu1 : x.isUpper = true <;> by_cases hu2 : y.isUpper = true <;>
    by_cases hu3 : z.isUpper = true <;> simp_all <;> omega

theorem jsLeP_antisymm_alpha (a b : String) (ha : isSingleAlpha a = true)
    (hb : isSingleAlpha b = true) (h1 : jsLeP a b) (h2 : jsLeP b a) : a = b := by
  obtain ⟨c, rfl, hc⟩ := (isSingleAlpha_iff a).mp ha
  obtain ⟨d, rfl, hd⟩ := (isSingleAlpha_iff b).mp hb
  rw [jsLeP_singleton_iff c d hc hd] at h1
  rw [jsLeP_singleton_iff d c hd hc] at h2
  have heq : c.toNat = d.toNat := by
    by_cases hu1 : c.isUpper = true <;> by_cases hu2 : d.isUpper = true <;>
      simp_all <;> omega
  rw [char_toNat_inj heq]

theorem pairwise_orderedInsert_alpha (a : String) (l : List String)
    (ha : isSingleAlpha a = true) (hl : ∀ x ∈ l, isSingleAlpha x = true)
    (h : l.Pairwise jsLeP) : (List.orderedInsert jsLeP a l).Pairwise jsLeP := by
  induction l with
  | nil => simp [List.orderedInsert]
  | cons b bs ih =>
    rw [List.orderedInsert]
    rcases List.pairwise_cons.mp h with ⟨hb, hbs⟩
    by_cases hab : jsLeP a b
    · rw [if_pos hab]
      refine List.pairwise_cons.mpr ⟨?_, h⟩
      intro x hx
      rcases List.mem_cons.mp hx with rfl | hx2
      · exact hab
      · exact jsLeP_trans_alpha a b x ha (hl b (List.mem_cons_self b bs))
          (hl x (List.mem_cons_of_mem b hx2)) hab (hb x hx2)
    · rw [if_neg hab]
      have hba : jsLeP b a :=
        (jsLeP_total_alpha a b ha (hl b (List.mem_cons_self b bs))).resolve_left hab
      refine List.pairwise_cons.mpr
        ⟨?_, ih (fun x hx => hl x (List.mem_cons_of_mem b hx)) hbs⟩
      intro x hx
      rcases (List.mem_orderedInsert jsLeP).mp hx with rfl | hx2
      · exact hba
      · exact hb x hx2

theorem pairwise_insertionSort_alpha (l : List String)
    (hl : ∀ x ∈ l, isSingleAlpha x = true) : (sortAlphabets l).Pairwise jsLeP := by
  induction l with
  | nil => simp [sortAlphabets, List.insertionSort]
  | cons a t ih =>
    rw [sortAlphabets, List.insertionSort]
    refine pairwise_orderedInsert_alpha a _ (hl a (List.mem_cons_self a t)) ?_ ?_
    · intro x hx
      exact hl x (List.mem_cons_of_mem a ((List.mem_insertionSort jsLeP).mp hx))
    · exact ih fun x hx => hl x (List.mem_cons_of_mem a hx)

theorem letterTokens_alpha (items : List JVal) :
    ∀ s ∈ (partitionTokens items).2.1, isSingleAlpha s = true := by
  induction items with
  | nil => intro s hs; cases hs
  | cons item rest ih =>
    intro s hs
    simp only [partitionTokens] at hs
    split_ifs at hs with h1 h2 h3
    · exact ih s hs
    · rcases List.mem_cons.mp hs with rfl | hs2
      · exact h2
      · exact ih s hs2
    · exact ih s hs
    · exact ih s hs

theorem eq_of_perm_pairwise_alpha : ∀ l1 l2 : List String,
    (∀ x ∈ l1, isSingleAlpha x = true) → l1.Perm l2 →
    l1.Pairwise jsLeP → l2.Pairwise jsLeP → l1 = l2
  | [], l2, _, hp, _, _ => (List.Perm.eq_nil hp.symm).symm
  | a :: t, l2, halpha, hp, hs1, hs2 => by
    cases l2 with
    | nil => exact absurd (List.Perm.eq_nil hp) (by simp)
    | cons b t2 =>
      have hab : a = b := by
        rcases List.mem_cons.mp (hp.subset (List.mem_cons_self a t)) with h | h
        · exact h
        · rcases List.mem_cons.mp (hp.symm.subset (List.mem_cons_self b t2)) with h2 | h2
          · exact h2.symm
          · have hle1 : jsLeP a b := (List.pairwise_cons.mp hs1).1 b h2
            have hle2 : jsLeP b a := (List.pairwise_cons.mp hs2).1 a h
            exact jsLeP_antisymm_alpha a b (halpha a (List.mem_cons_self a t))
              (halpha b (List.mem_cons_of_mem a h2)) hle1 hle2
      subst hab
      rw [eq_of_perm_pairwise_alpha t t2
        (fun x hx => halpha x (List.mem_cons_of_mem a hx)) hp.cons_inv
        (List.pairwise_cons.mp hs1).2 (List.pairwise_cons.mp hs2).2]

theorem pairwise_specKeyLE_of (l : List String)
    (hl : ∀ x ∈ l, isSingleAlpha x = true) (h : l.Pairwise jsLeP) :
    l.Pairwise specKeyLE := by
  refine List.Pairwise.imp_of_mem ?_ h
  intro a b ha hb hab
  obtain ⟨c, rfl, hc⟩ := (isSingleAlpha_iff a).mp (hl a ha)
  obtain ⟨d, rfl, hd⟩ := (isSingleAlpha_iff b).mp (hl b hb)
  rw [jsLeP_singleton_iff c d hc hd] at hab
  simp only [specKeyLE]
  by_cases h1 : c.isUpper = true <;> by_cases h2 : d.isUpper = true <;>
    simp_all <;> omega

end ArrayProc

namespace ArrayProc

/-- C5: the alphabets field of a success Result is the sequence of
single-letter tokens sorted by the key order key(c) = (0, c) for uppercase
and (1, c) for lowercase: it is a permutation of the letter tokens that is
pairwise ordered by the spec key relation (uppercase before lowercase,
same case by code point).  On the single letters that reach the comparator,
the three-branch source comparator realises exactly this total order. -/
theorem c5_alphabets_sorted_by_key (items : List JVal) :
    ((processArrayData (.record (some (.arr items)))).alphabets).Perm (letterTokens items) ∧
    ((processArrayData (.record (some (.arr items)))).alphabets).Pairwise specKeyLE := by
  rw [processArrayData_record_arr, processItems_alphabets]
  constructor
  · exact List.perm_insertionSort jsLeP _
  · refine pairwise_specKeyLE_of _ ?_ (pairwise_insertionSort_alpha _ (letterTokens_alpha items))
    intro x hx
    exact letterTokens_alpha items x ((List.mem_insertionSort jsLeP).mp hx)

/-- C9: the letter sort is a valid total order on the letters it is applied
to: sorting the alphabets output again yields the same sequence, and two
inputs whose letter tokens form the same multiset produce the same
alphabets sequence and the same concat_string. -/
theorem c9_letter_sort_total_order (items1 items2 : List JVal) :
    sortAlphabets ((processArrayData (.record (some (.arr items1)))).alphabets) =
      (processArrayData (.record (some (.arr items1)))).alphabets ∧
    ((letterTokens items1).Perm (letterTokens items2) →
      (processArrayData (.record (some (.arr items1)))).alphabets =
        (processArrayData (.record (some (.arr items2)))).alphabets ∧
      (processArrayData (.record (some (.arr items1)))).concat_string =
        (processArrayData (.record (some (.arr items2)))).concat_string) := by
  rw [processArrayData_record_arr, processArrayData_record_arr, processItems_alphabets,
    processItems_alphabets, processItems_concat_string, processItems_concat_string]
  constructor
  · exact List.Sorted.insertionSort_eq
      (pairwise_insertionSort_alpha _ (letterTokens_alpha items1))
  · intro hp
    have h1 : sortAlphabets (partitionTokens items1).2.1 =
        sortAlphabets (partitionTokens items2).2.1 := by
      refine eq_of_perm_pairwise_alpha _ _ ?_ ?_
        (pairwise_insertionSort_alpha _ (letterTokens_alpha items1))
        (pairwise_insertionSort_alpha _ (letterTokens_alpha items2))
      · intro x hx
        exact letterTokens_alpha items1 x ((List.mem_insertionSort jsLeP).mp hx)
      · exact ((List.perm_insertionSort jsLeP _).trans hp).trans
          (List.perm_insertionSort jsLeP _).symm
    exact ⟨h1, by rw [h1]⟩

/-- Witness for C9 at two concrete inputs holding the letters b, A in the
two possible orders. -/
theorem c9_witness :
    (letterTokens [JVal.str "b", JVal.str "A"]).Perm
      (letterTokens [JVal.str "A", JVal.str "b"]) ∧
    (sortAlphabets ((processArrayData (.record (some (.arr [JVal.str "b",
        JVal.str "A"])))).alphabets) =
      (processArrayData (.record (some (.arr [JVal.str "b", JVal.str "A"])))).alphabets ∧
    ((processArrayData (.record (some (.arr [JVal.str "b", JVal.str "A"])))).alphabets =
        (processArrayData (.record (some (.arr [JVal.str "A", JVal.str "b"])))).alphabets ∧
      (processArrayData (.record (some (.arr [JVal.str "b",
          JVal.str "A"])))).concat_string =
        (processArrayData (.record (some (.arr [JVal.str "A",
          JVal.str "b"])))).concat_string)) := by
  have hp : (letterTokens [JVal.str "b", JVal.str "A"]).Perm
      (letterTokens [JVal.str "A", JVal.str "b"]) := by decide
  have h := c9_letter_sort_total_order [JVal.str "b", JVal.str "A"]
    [JVal.str "A", JVal.str "b"]
  exact ⟨hp, h.1, h.2 hp⟩

end ArrayProc
